import Mathlib

/-!
Verification of the attendance normalization and productivity aggregation
engine of the employee-productivity-tracker repository.

The JavaScript source is shallowly embedded: machine numbers become `Int`
(epoch milliseconds, epoch days) and `ℚ` (fractional hours), fallible
parsing returns `Option`, and the Express controller bodies become pure
functions from an explicit store (a list of records) to a store and an
outcome value.  JS `Date` and the moment library are modelled by explicit
proleptic-Gregorian calendar arithmetic (Howard Hinnant's civil-calendar
algorithms, which is what ECMAScript date arithmetic computes).
-/

namespace EPT

/-! ## Calendar arithmetic (model of the ECMAScript / moment date engine)

`daysFromCivil y m d` is the number of days from 1970-01-01 to the civil
date `(y, m, d)` (month 1-based); it models `Date.UTC(year, monthIndex,
day) / 86400000` (the 0-based `monthIndex` shift cancels against our
1-based months).  `civilYear`/`civilMonth`/`civilDay` recover the civil
fields of an epoch day, modelling `getUTCFullYear`/`getUTCMonth() + 1`/
`getUTCDate`. -/

def daysFromCivil (y m d : Int) : Int :=
  (if m ≤ 2 then y - 1 else y) / 400 * 146097
    + (((if m ≤ 2 then y - 1 else y) - (if m ≤ 2 then y - 1 else y) / 400 * 400) * 365
       + ((if m ≤ 2 then y - 1 else y) - (if m ≤ 2 then y - 1 else y) / 400 * 400) / 4
       - ((if m ≤ 2 then y - 1 else y) - (if m ≤ 2 then y - 1 else y) / 400 * 400) / 100
       + ((153 * (if m > 2 then m - 3 else m + 9) + 2) / 5 + d - 1))
    - 719468

/-- Era (400-year block) of an epoch day. -/
def cfdEra (z : Int) : Int := (z + 719468) / 146097

/-- Day-of-era of an epoch day, in `[0, 146096]`. -/
def cfdDoe (z : Int) : Int := (z + 719468) - cfdEra z * 146097

/-- Year-of-era of a day-of-era, in `[0, 399]`. -/
def yoeOfDoe (doe : Int) : Int := (doe - doe / 1460 + doe / 36524 - doe / 146096) / 365

/-- Day-of-year (March-based) of a day-of-era, in `[0, 365]`. -/
def doyOfDoe (doe : Int) : Int :=
  doe - (365 * yoeOfDoe doe + yoeOfDoe doe / 4 - yoeOfDoe doe / 100)

/-- March-based month index of a day-of-era, in `[0, 11]`. -/
def mpOfDoe (doe : Int) : Int := (5 * doyOfDoe doe + 2) / 153

/-- Day-of-month of a day-of-era, in `[1, 31]`. -/
def dayOfDoe (doe : Int) : Int := doyOfDoe doe - (153 * mpOfDoe doe + 2) / 5 + 1

/-- Civil (1-based, January-based) month of a day-of-era. -/
def monthOfDoe (doe : Int) : Int :=
  if mpOfDoe doe < 10 then mpOfDoe doe + 3 else mpOfDoe doe - 9

/-- Civil year of epoch day `z`. -/
def civilYear (z : Int) : Int :=
  yoeOfDoe (cfdDoe z) + cfdEra z * 400 + (if monthOfDoe (cfdDoe z) ≤ 2 then 1 else 0)

/-- Civil month (1-based) of epoch day `z`. -/
def civilMonth (z : Int) : Int := monthOfDoe (cfdDoe z)

/-- Civil day-of-month of epoch day `z`. -/
def civilDay (z : Int) : Int := dayOfDoe (cfdDoe z)


/-! ## Epoch-day / instant utilities -/

/-- Milliseconds per day. -/
def msPerDay : Int := 86400000

/-- UTC epoch day of an instant in epoch milliseconds. -/
def utcEpochDay (ms : Int) : Int := ms / msPerDay

/-- Local epoch day of an instant, for an environment whose local time is
`tz` minutes ahead of UTC (models the local calendar used by
`getFullYear`/`getMonth`/`getDate`). -/
def localEpochDay (tz ms : Int) : Int := (ms + tz * 60000) / msPerDay

/-- Day-of-week names as produced by `moment.utc(d).format(dddd)`. -/
inductive Weekday
  | sunday
  | monday
  | tuesday
  | wednesday
  | thursday
  | friday
  | saturday
deriving DecidableEq

/-- Weekday of a UTC epoch day (1970-01-01 was a Thursday; index 0 is
Sunday, matching the ECMAScript `getUTCDay` convention that the day
names are derived from). -/
def dayOfWeekOfEpochDay (d : Int) : Weekday :=
  match ((d + 4) % 7).toNat with
  | 0 => .sunday
  | 1 => .monday
  | 2 => .tuesday
  | 3 => .wednesday
  | 4 => .thursday
  | 5 => .friday
  | _ => .saturday

/-! ## Rounding and string utilities -/

/-- `parseFloat(x.toFixed(2))`: round to 2 decimal places, ties toward
positive infinity (ECMAScript `toFixed` picks the larger candidate at a
tie). -/
def round2 (q : ℚ) : ℚ := (⌊100 * q + 1 / 2⌋ : ℚ) / 100

/-- JS falsiness of an optional string cell value (`null`/`undefined` or
the empty string). -/
def strFalsy : Option String → Bool
  | none => true
  | some s => s == ""

def colonChar : Char := (':')
def dashChar : Char := ('-')
def slashChar : Char := ('/')

/-- Split a character list on a separator (kernel-reducible counterpart of
`String.split`). -/
def splitOnChar (sep : Char) : List Char → List (List Char)
  | [] => [[]]
  | c :: cs =>
    if c = sep then [] :: splitOnChar sep cs
    else
      match splitOnChar sep cs with
      | [] => [[c]]
      | g :: gs => (c :: g) :: gs

/-- Numeric value of a decimal digit character, if it is one. -/
def digitVal (c : Char) : Option Nat :=
  if c.toNat ≥ 48 ∧ c.toNat ≤ 57 then some (c.toNat - 48) else none

/-- Parse a non-empty all-digit character list as a natural number. -/
def digitsToNat : List Char → Option Nat
  | [] => none
  | cs => go cs 0
where
  go : List Char → Nat → Option Nat
    | [], acc => some acc
    | c :: cs, acc =>
      match digitVal c with
      | some v => go cs (10 * acc + v)
      | none => none

/-! ## Hours Calculator (`utils/helpers.js`) -/

/-- Parse a wall-clock time of day in the `HH:mm` shape accepted by
`moment(s, HH:mm)`: two colon-separated components of one or two digits,
hour at most 23, minute at most 59.  Returns minutes since midnight. -/
def parseHHMM (s : String) : Option Nat :=
  match splitOnChar colonChar s.toList with
  | [hs, ms] =>
    match digitsToNat hs, digitsToNat ms with
    | some h, some m =>
      if 1 ≤ hs.length ∧ hs.length ≤ 2 ∧ 1 ≤ ms.length ∧ ms.length ≤ 2
          ∧ h ≤ 23 ∧ m ≤ 59 then
        some (60 * h + m)
      else none
    | _, _ => none
  | _ => none

/-- `Helpers.calculateWorkedHours(inTime, outTime)`: 0 when either value is
falsy or fails to parse as `HH:mm`; otherwise the difference in fractional
hours, rounded to 2 decimals then floored at 0 (`Math.max(0, ...)`). -/
def calculateWorkedHours (inTime outTime : Option String) : ℚ :=
  if strFalsy inTime || strFalsy outTime then 0
  else
    match inTime.bind parseHHMM, outTime.bind parseHHMM with
    | some im, some om => max 0 (round2 (((om : ℚ) - (im : ℚ)) / 60))
    | _, _ => 0

/-- `Helpers.getExpectedHours(dayOfWeek)`: the static weekly schedule
table (Mon-Fri 8.5, Sat 4, Sun 0). -/
def getExpectedHours : Weekday → ℚ
  | .monday => 8.5
  | .tuesday => 8.5
  | .wednesday => 8.5
  | .thursday => 8.5
  | .friday => 8.5
  | .saturday => 4
  | .sunday => 0

/-! ## Day Classifier (`uploadController.js`, row loop) -/

/-- Day statuses of a canonical record. -/
inductive Status
  | present
  | leave
  | holiday
  | weekend
deriving DecidableEq

/-- Result of classifying one day: the `status`, `workedHours`, `isLeave`
and `isHoliday` fields assigned by the row loop of `uploadAttendance`. -/
structure DayClass where
  status : Status
  workedHours : ℚ
  isLeave : Bool
  isHoliday : Bool
deriving DecidableEq

/-- The classification branch of the `uploadAttendance` row loop:
`isHoliday` iff Sunday, a (dead) `Weekend` branch requiring a weekend day
that is also Sunday, then the punch logic assigning `Leave` or `Present`. -/
def classifyDay (dayOfWeek : Weekday) (inTime outTime : Option String) : DayClass :=
  let isWeekend : Bool := dayOfWeek == .saturday || dayOfWeek == .sunday
  let isHoliday : Bool := dayOfWeek == .sunday
  if isHoliday then ⟨.holiday, 0, false, true⟩
  else if isWeekend && dayOfWeek == .sunday then ⟨.weekend, 0, false, false⟩
  else if strFalsy inTime || strFalsy outTime then ⟨.leave, 0, true, false⟩
  else
    let wh := calculateWorkedHours inTime outTime
    if wh = 0 then ⟨.leave, wh, true, false⟩
    else ⟨.present, wh, false, false⟩

/-! ## Date Normalizer (`uploadController.js`, date branches) -/

/-- A parsed civil date (month and day 1-based). -/
structure YMD where
  year : Int
  month : Nat
  day : Nat
deriving DecidableEq

/-- Leap year test of the Gregorian calendar. -/
def isLeapYear (y : Int) : Bool := (y % 4 == 0 && y % 100 != 0) || y % 400 == 0

/-- Days in a month (month 1-based); 0 for an out-of-range month. -/
def daysInMonth (y : Int) (m : Nat) : Nat :=
  match m with
  | 1 => 31
  | 2 => if isLeapYear y then 29 else 28
  | 3 => 31
  | 4 => 30
  | 5 => 31
  | 6 => 30
  | 7 => 31
  | 8 => 31
  | 9 => 30
  | 10 => 31
  | 11 => 30
  | 12 => 31
  | _ => 0

/-- Build a `YMD` from digit groups if they form a real calendar date. -/
def mkValidYMD (y mo d : Nat) : Option YMD :=
  if 1 ≤ mo ∧ mo ≤ 12 ∧ 1 ≤ d ∧ d ≤ daysInMonth (y : Int) mo then
    some ⟨(y : Int), mo, d⟩
  else none

/-- Strict `YYYY-MM-DD`: exactly 4-2-2 digit groups separated by dashes,
forming a valid calendar date. -/
def matchFmtYMDdash (s : String) : Option YMD :=
  match splitOnChar dashChar s.toList with
  | [ys, mos, ds] =>
    if ys.length = 4 ∧ mos.length = 2 ∧ ds.length = 2 then
      match digitsToNat ys, digitsToNat mos, digitsToNat ds with
      | some y, some mo, some d => mkValidYMD y mo d
      | _, _, _ => none
    else none
  | _ => none

/-- Strict `DD/MM/YYYY`. -/
def matchFmtDMYslash (s : String) : Option YMD :=
  match splitOnChar slashChar s.toList with
  | [ds, mos, ys] =>
    if ds.length = 2 ∧ mos.length = 2 ∧ ys.length = 4 then
      match digitsToNat ys, digitsToNat mos, digitsToNat ds with
      | some y, some mo, some d => mkValidYMD y mo d
      | _, _, _ => none
    else none
  | _ => none

/-- Strict `MM/DD/YYYY`. -/
def matchFmtMDYslash (s : String) : Option YMD :=
  match splitOnChar slashChar s.toList with
  | [mos, ds, ys] =>
    if mos.length = 2 ∧ ds.length = 2 ∧ ys.length = 4 then
      match digitsToNat ys, digitsToNat mos, digitsToNat ds with
      | some y, some mo, some d => mkValidYMD y mo d
      | _, _, _ => none
    else none
  | _ => none

/-- Strict `DD-MM-YYYY`. -/
def matchFmtDMYdash (s : String) : Option YMD :=
  match splitOnChar dashChar s.toList with
  | [ds, mos, ys] =>
    if ds.length = 2 ∧ mos.length = 2 ∧ ys.length = 4 then
      match digitsToNat ys, digitsToNat mos, digitsToNat ds with
      | some y, some mo, some d => mkValidYMD y mo d
      | _, _, _ => none
    else none
  | _ => none

/-- First matcher in the list that accepts the string wins.  Models
`moment(s, formats, true)` for these four full-string formats: all
formats consume the whole input, so moment's scoring degenerates to
earliest-valid-format-first. -/
def tryFormatsInOrder (s : String) : List (String → Option YMD) → Option YMD
  | [] => none
  | f :: rest =>
    match f s with
    | some ymd => some ymd
    | none => tryFormatsInOrder s rest

/-- The fixed format list of the string branch of `uploadAttendance`. -/
def dateFormats : List (String → Option YMD) :=
  [matchFmtYMDdash, matchFmtDMYslash, matchFmtMDYslash, matchFmtDMYdash]

def parseDateString (s : String) : Option YMD := tryFormatsInOrder s dateFormats

/-- `Date.UTC(y, m0, d)` with our 1-based month `m = m0 + 1`: the instant
of UTC midnight of the civil date, in epoch milliseconds. -/
def dateUTC (y m d : Int) : Int := daysFromCivil y m d * msPerDay

/-- The `dateValue instanceof Date` branch: read the input instant's local
calendar fields (`getFullYear`/`getMonth`/`getDate`) and rebuild a UTC
midnight from them. -/
def normalizeDateObject (tz ms : Int) : Int :=
  dateUTC (civilYear (localEpochDay tz ms)) (civilMonth (localEpochDay tz ms))
    (civilDay (localEpochDay tz ms))

/-- `Date.UTC(1899, 11, 30)`: the spreadsheet serial-date origin. -/
def excelEpochMs : Int := dateUTC 1899 12 30

/-- The raw spreadsheet cell: a date object, a string, a serial number,
null, or some other type. -/
inductive DateValue
  | null
  | dateObj (ms : Int)
  | str (s : String)
  | num (serial : ℚ)
  | other
deriving DecidableEq

/-- JS falsiness of a date cell (`!dateValue`): null, empty string, or the
number 0. -/
def dvFalsy : DateValue → Bool
  | .null => true
  | .str s => s == ""
  | .num q => q == 0
  | _ => false

/-- The date-parsing dispatch of the `uploadAttendance` row loop: date
objects are renormalized to UTC midnight of their local calendar day,
strings go through the strict format list, numbers are whole-day offsets
(`Math.floor`) from the 1899-12-30 spreadsheet epoch, and any other type
fails. -/
def parseDateValue (tz : Int) : DateValue → Option Int
  | .dateObj ms => some (normalizeDateObject tz ms)
  | .str s =>
    match parseDateString s with
    | some ymd => some (dateUTC ymd.year (ymd.month : Int) (ymd.day : Int))
    | none => none
  | .num serial => some (excelEpochMs + ⌊serial⌋ * msPerDay)
  | _ => none

/-! ## Record Builder (`uploadController.js`, row loop) -/

/-- One raw spreadsheet row: name, date cell, in-time and out-time. -/
structure RawRow where
  employeeName : Option String
  dateValue : DateValue
  inTime : Option String
  outTime : Option String

/-- A canonical attendance record as pushed into `attendanceData` and
stored (the `employeeId` field added later from the employee store is
presentation plumbing and is omitted). -/
structure Record where
  employeeName : String
  date : Int
  inTime : Option String
  outTime : Option String
  workedHours : ℚ
  isLeave : Bool
  isHoliday : Bool
  dayOfWeek : Weekday
  monthYear : String
  expectedHours : ℚ
  status : Status
deriving DecidableEq

/-- One iteration of the `uploadAttendance` row loop: skip when name or
date cell is falsy or the date fails to parse, otherwise classify the day
and build the canonical record. -/
def buildRow (tz : Int) (monthYear : String) (row : RawRow) : Option Record :=
  row.employeeName.bind fun name =>
    if name == "" || dvFalsy row.dateValue then none
    else
      (parseDateValue tz row.dateValue).bind fun parsedMs =>
        let dow := dayOfWeekOfEpochDay (utcEpochDay parsedMs)
        let c := classifyDay dow row.inTime row.outTime
        some ⟨name, parsedMs,
          (if strFalsy row.inTime then none else row.inTime),
          (if strFalsy row.outTime then none else row.outTime),
          c.workedHours, c.isLeave, c.isHoliday, dow, monthYear,
          getExpectedHours dow, c.status⟩

/-- The whole row loop: header skipping and per-row try/catch reduce to
keeping the rows that build successfully. -/
def processRows (tz : Int) (monthYear : String) (rows : List RawRow) : List Record :=
  rows.filterMap (buildRow tz monthYear)

/-! ## Aggregator: per-employee month statistics

The same statistics block appears in `uploadAttendance` (lines 213-243)
and in the `GET /month/:year/:month` route; both filter one employee's
records, sum hours, count leaves, divide, round, and emit a per-day
breakdown ordered by date (the upload sorts explicitly, the query relies
on the store's `(employeeName, date)` sort). -/

/-- Ascending-by-date insertion (models the effect of
`.sort((a, b) => a.date - b.date)`). -/
def insertByDate (r : Record) : List Record → List Record
  | [] => [r]
  | x :: xs => if r.date ≤ x.date then r :: x :: xs else x :: insertByDate r xs

def sortByDate : List Record → List Record
  | [] => []
  | x :: xs => insertByDate x (sortByDate xs)

/-- One `dailyBreakdown` element (the projection mapped over the sorted
records; the ISO date string is kept as the underlying instant). -/
structure BreakdownEntry where
  date : Int
  day : Weekday
  workedHours : ℚ
  isLeave : Bool
  isHoliday : Bool
  expectedHours : ℚ
  inTime : Option String
  outTime : Option String
  status : Status
deriving DecidableEq

def toBreakdownEntry (r : Record) : BreakdownEntry :=
  ⟨r.date, r.dayOfWeek, r.workedHours, r.isLeave, r.isHoliday, r.expectedHours,
    r.inTime, r.outTime, r.status⟩

/-- The per-employee month statistic object. -/
structure MonthStat where
  employeeName : String
  totalExpectedHours : ℚ
  totalWorkedHours : ℚ
  leavesTaken : Nat
  leavesAllowed : Nat
  productivity : ℚ
  dailyBreakdown : List BreakdownEntry
deriving DecidableEq

/-- The statistics block, applied to the records of one employee. -/
def employeeMonthStat (name : String) (employeeRecords : List Record) : MonthStat :=
  let totalExpectedHours := employeeRecords.foldl (fun s r => s + r.expectedHours) 0
  let totalWorkedHours := employeeRecords.foldl (fun s r => s + r.workedHours) 0
  let leavesTaken := (employeeRecords.filter (fun r => r.isLeave && !r.isHoliday)).length
  let productivity :=
    if totalExpectedHours > 0 then totalWorkedHours / totalExpectedHours * 100 else 0
  ⟨name, round2 totalExpectedHours, round2 totalWorkedHours, leavesTaken, 2,
    round2 productivity, (sortByDate employeeRecords).map toBreakdownEntry⟩

/-- Distinct employee names in order of first appearance (the
`employeesMap` insertion order / `[...new Set(...)]`). -/
def distinctNames (recs : List Record) : List String :=
  (recs.map (fun r => r.employeeName)).eraseDups

/-! ## Record Builder, batch level (`uploadAttendance`) -/

/-- `${year}-${String(month).padStart(2, 0)}`. -/
def mkMonthLabel (year month : Nat) : String :=
  toString year ++ ("-") ++ (if month < 10 then ("0") ++ toString month else toString month)

inductive UploadOutcome
  | invalidMonth
  | duplicateData (monthYear : String)
  | noValidData
  | ok (insertedCount : Nat) (employeeCount : Nat) (monthYear : String)
      (statistics : List MonthStat)
deriving DecidableEq

/-- The `uploadAttendance` controller over an explicit store: month
validation, duplicate-partition check against the raw `override` string,
row processing, empty-batch rejection, delete-when-overriding, insert, and
the per-employee statistics of the response.  (File-presence and
`parseInt` glue are outside the model; employee-identity creation does not
affect the store of attendance records.) -/
def uploadAttendance (tz : Int) (store : List Record) (month year : Nat)
    (override : String) (rows : List RawRow) : List Record × UploadOutcome :=
  if month < 1 ∨ month > 12 then (store, .invalidMonth)
  else
    let monthYear := mkMonthLabel year month
    let existingData := store.any (fun r => r.monthYear == monthYear)
    if existingData && override != "true" then (store, .duplicateData monthYear)
    else
      let attendanceData := processRows tz monthYear rows
      if attendanceData.length = 0 then (store, .noValidData)
      else
        let names := distinctNames attendanceData
        let statistics := names.map (fun n =>
          employeeMonthStat n (attendanceData.filter (fun r => r.employeeName == n)))
        let store2 :=
          if existingData && override == "true" then
            store.filter (fun r => r.monthYear != monthYear)
          else store
        (store2 ++ attendanceData,
         .ok attendanceData.length names.length monthYear statistics)

/-! ## Query routes (`routes` file) -/

inductive MonthQueryResult
  | noData (monthYear : String)
  | ok (monthYear : String) (statistics : List MonthStat) (totalRecords : Nat)
      (totalEmployees : Nat)
deriving DecidableEq

/-- `GET /month/:year/:month`: find the partition, 404 with the label when
it is empty, otherwise per-employee statistics. -/
def monthQuery (store : List Record) (year month : Nat) : MonthQueryResult :=
  let monthYear := mkMonthLabel year month
  let attendanceData := store.filter (fun r => r.monthYear == monthYear)
  if attendanceData.length = 0 then .noData monthYear
  else
    let employees := distinctNames attendanceData
    .ok monthYear
      (employees.map (fun n =>
        employeeMonthStat n (attendanceData.filter (fun r => r.employeeName == n))))
      attendanceData.length employees.length

structure WorkforceEmployeeEntry where
  employeeName : String
  workedHours : ℚ
  isLeave : Bool
  isHoliday : Bool
deriving DecidableEq

structure WorkforceDayGroup where
  day : Int
  employees : List WorkforceEmployeeEntry
deriving DecidableEq

inductive WorkforceResult
  | invalidYear
  | invalidMonth
  | ok (year month : Nat) (dailyBreakdown : List WorkforceDayGroup)
deriving DecidableEq

/-- `new Date(year, monthIndex, day)` (local-time constructor) as an
instant, with month-index overflow normalized. -/
def jsLocalNewDateMs (tz y monthIndex day : Int) : Int :=
  daysFromCivil (y + monthIndex / 12) (monthIndex % 12 + 1) day * msPerDay - tz * 60000

/-- UTC day key of a stored record (`$dateToString` groups by the UTC
calendar day). -/
def wfDayKey (r : Record) : Int := r.date / msPerDay

def insertIntAsc (x : Int) : List Int → List Int
  | [] => [x]
  | y :: ys => if x ≤ y then x :: y :: ys else y :: insertIntAsc x ys

def sortIntAsc : List Int → List Int
  | [] => []
  | x :: xs => insertIntAsc x (sortIntAsc xs)

/-- Per-day, per-employee grouping of the workforce aggregation: summed
worked hours and or-ed leave/holiday flags. -/
def wfEmployeesOn (recs : List Record) (d : Int) : List WorkforceEmployeeEntry :=
  let dayRecs := recs.filter (fun r => wfDayKey r == d)
  (distinctNames dayRecs).map (fun n =>
    let es := dayRecs.filter (fun r => r.employeeName == n)
    ⟨n, es.foldl (fun s r => s + r.workedHours) 0,
      es.any (fun r => r.isLeave), es.any (fun r => r.isHoliday)⟩)

def workforceBreakdown (recs : List Record) : List WorkforceDayGroup :=
  (sortIntAsc ((recs.map wfDayKey).eraseDups)).map (fun d => ⟨d, wfEmployeesOn recs d⟩)

/-- `GET /workforce/:year/:month`: range validation, a local-time month
window, and the grouped daily breakdown — answered as a success even when
the window holds no records. -/
def workforceQuery (tz : Int) (currentYear : Nat) (store : List Record)
    (year month : Nat) : WorkforceResult :=
  if year < 2000 ∨ year > currentYear + 1 then .invalidYear
  else if month < 1 ∨ month > 12 then .invalidMonth
  else
    let startMs := jsLocalNewDateMs tz (year : Int) ((month : Int) - 1) 1
    let endMs := jsLocalNewDateMs tz (year : Int) (month : Int) 1
    let matched := store.filter (fun r => startMs ≤ r.date ∧ r.date < endMs)
    .ok year month (workforceBreakdown matched)

/-! ## Aggregator: year statistics (`GET /year-aggregated/:year`) -/

/-- One month's productivity entry of `monthlyProductivity`. -/
structure MonthProd where
  month : Nat
  productivity : ℚ
  leavesTaken : Nat
deriving DecidableEq

/-- Accumulator of the `monthlyProductivity.forEach` pass. -/
structure BWAcc where
  best : MonthProd
  worst : MonthProd
  exceeded : Nat
deriving DecidableEq

/-- One iteration of the pass: strict improvement for best, strict
improvement restricted to positive productivity for worst, and the
leave-limit counter. -/
def bwStep (acc : BWAcc) (m : MonthProd) : BWAcc :=
  ⟨(if m.productivity > acc.best.productivity then m else acc.best),
   (if m.productivity < acc.worst.productivity ∧ m.productivity > 0 then m else acc.worst),
   (if m.leavesTaken > 2 then acc.exceeded + 1 else acc.exceeded)⟩

/-- Initial accumulator: `best = {month: 0, productivity: 0}`,
`worst = {month: 0, productivity: 100}`. -/
def bwInit : BWAcc := ⟨⟨0, 0, 0⟩, ⟨0, 100, 0⟩, 0⟩

def bwFold (ms : List MonthProd) : BWAcc := ms.foldl bwStep bwInit

/-- The reported best month: shown only when its productivity is positive,
otherwise `N/A` (`none`). -/
def bestMonthReport (ms : List MonthProd) : Option MonthProd :=
  if (bwFold ms).best.productivity > 0 then some (bwFold ms).best else none

/-- The reported worst month: shown only when its productivity is below
100, otherwise `N/A` (`none`). -/
def worstMonthReport (ms : List MonthProd) : Option MonthProd :=
  if (bwFold ms).worst.productivity < 100 then some (bwFold ms).worst else none

/-! ## Helper lemmas -/


/-- A rational representable with two decimal places. -/
def TwoDec (q : ℚ) : Prop := ∃ n : ℤ, q = (n : ℚ) / 100

/-- The invariants every record built by the row loop satisfies: the
boolean flags are views of `status`, and the hour figures are non-negative
two-decimal quantities. -/
def CanonicalRec (r : Record) : Prop :=
  (r.isLeave = true ↔ r.status = .leave)
  ∧ (r.isHoliday = true ↔ r.status = .holiday)
  ∧ TwoDec r.workedHours ∧ TwoDec r.expectedHours
  ∧ 0 ≤ r.workedHours ∧ 0 ≤ r.expectedHours

/-! ## Concrete records and rows used in witnesses -/

/-- The concrete Sunday row and its canonical record (2024-03-03 was a
Sunday; punches present but discarded). -/
def rowSun : RawRow := ⟨some ("Asha"), .str ("2024-03-03"), some ("09:00"), some ("17:30")⟩

def recSun : Record :=
  ⟨("Asha"), 1709424000000, some ("09:00"), some ("17:30"), 0, false, true, .sunday,
    ("2024-03"), 0, .holiday⟩

def rowSat : RawRow := ⟨some ("Asha"), .str ("2024-03-02"), none, none⟩

def recSat : Record :=
  ⟨("Asha"), 1709337600000, none, none, 0, true, false, .saturday, ("2024-03"),
    4, .leave⟩

/-- A canonical Present Monday: 8 worked hours against 8.5 expected. -/
def recMon : Record :=
  ⟨("Asha"), 1709510400000, some ("09:00"), some ("17:00"), 8, false, false, .monday,
    ("2024-03"), 8.5, .present⟩

/-- A raw row with a falsy (empty) employee name, always filtered out. -/
def badRow : RawRow := ⟨some (""), .null, none, none⟩

/-! ## Calendar correctness -/

set_option maxHeartbeats 4000000 in
theorem doyOfDoe_bounds (doe : Int) (h0 : 0 ≤ doe) (h1 : doe ≤ 146096) :
    0 ≤ doyOfDoe doe ∧ doyOfDoe doe ≤ 365 := by
  have hb : 0 ≤ yoeOfDoe doe ∧ yoeOfDoe doe ≤ 399 := by unfold yoeOfDoe; omega
  unfold doyOfDoe
  unfold yoeOfDoe at hb ⊢
  obtain ⟨hb0, hb1⟩ := hb
  set yoe := (doe - doe / 1460 + doe / 36524 - doe / 146096) / 365 with hyoe
  clear_value yoe
  interval_cases yoe <;> omega

theorem daysFromCivil_decompA (era yoe m d : Int) (h0 : 0 ≤ yoe) (h1 : yoe ≤ 399)
    (hm : m > 2) :
    daysFromCivil (yoe + era * 400) m d
      = era * 146097 + (yoe * 365 + yoe / 4 - yoe / 100 + ((153 * (m - 3) + 2) / 5 + d - 1))
        - 719468 := by
  unfold daysFromCivil
  rw [if_neg (show ¬ (m ≤ 2) by omega), if_pos hm]
  omega

theorem daysFromCivil_decompB (era yoe m d : Int) (h0 : 0 ≤ yoe) (h1 : yoe ≤ 399)
    (hm : m ≤ 2) :
    daysFromCivil (yoe + era * 400 + 1) m d
      = era * 146097 + (yoe * 365 + yoe / 4 - yoe / 100 + ((153 * (m + 9) + 2) / 5 + d - 1))
        - 719468 := by
  unfold daysFromCivil
  rw [if_pos hm, if_neg (show ¬ (m > 2) by omega),
    show yoe + era * 400 + 1 - 1 = yoe + era * 400 from by ring]
  omega

theorem daysFromCivil_key (era doe : Int) (h0 : 0 ≤ doe) (h1 : doe ≤ 146096) :
    daysFromCivil (yoeOfDoe doe + era * 400 + (if monthOfDoe doe ≤ 2 then 1 else 0))
      (monthOfDoe doe) (dayOfDoe doe) = era * 146097 + doe - 719468 := by
  have hdoy := doyOfDoe_bounds doe h0 h1
  have hyb : 0 ≤ yoeOfDoe doe ∧ yoeOfDoe doe ≤ 399 := by unfold yoeOfDoe; omega
  have hmpd : mpOfDoe doe = (5 * doyOfDoe doe + 2) / 153 := rfl
  have hdd : dayOfDoe doe = doyOfDoe doe - (153 * mpOfDoe doe + 2) / 5 + 1 := rfl
  have hdoyd : doyOfDoe doe
      = doe - (365 * yoeOfDoe doe + yoeOfDoe doe / 4 - yoeOfDoe doe / 100) := rfl
  have hmpb : 0 ≤ mpOfDoe doe ∧ mpOfDoe doe ≤ 11 := by omega
  by_cases hc : mpOfDoe doe < 10
  · have hm : monthOfDoe doe = mpOfDoe doe + 3 := by unfold monthOfDoe; rw [if_pos hc]
    rw [hm]
    rw [if_neg (show ¬ (mpOfDoe doe + 3 ≤ 2) by omega),
      show yoeOfDoe doe + era * 400 + 0 = yoeOfDoe doe + era * 400 from by ring,
      daysFromCivil_decompA era (yoeOfDoe doe) (mpOfDoe doe + 3) (dayOfDoe doe) hyb.1 hyb.2
        (by omega),
      show mpOfDoe doe + 3 - 3 = mpOfDoe doe from by ring]
    omega
  · have hm : monthOfDoe doe = mpOfDoe doe - 9 := by unfold monthOfDoe; rw [if_neg hc]
    rw [hm]
    rw [if_pos (show mpOfDoe doe - 9 ≤ 2 by omega),
      daysFromCivil_decompB era (yoeOfDoe doe) (mpOfDoe doe - 9) (dayOfDoe doe) hyb.1 hyb.2
        (by omega),
      show mpOfDoe doe - 9 + 9 = mpOfDoe doe from by ring]
    omega

/-- The civil fields of an epoch day map back to that epoch day:
`daysFromCivil` is a left inverse of the civil-field extraction. -/
theorem daysFromCivil_civil (z : Int) :
    daysFromCivil (civilYear z) (civilMonth z) (civilDay z) = z := by
  have hdoe : 0 ≤ cfdDoe z ∧ cfdDoe z ≤ 146096 := by unfold cfdDoe cfdEra; omega
  have h := daysFromCivil_key (cfdEra z) (cfdDoe z) hdoe.1 hdoe.2
  unfold civilYear civilMonth civilDay
  rw [h]
  unfold cfdDoe
  ring

theorem TwoDec.zero : TwoDec 0 := ⟨0, by norm_num⟩

theorem TwoDec.add {a b : ℚ} (ha : TwoDec a) (hb : TwoDec b) : TwoDec (a + b) := by
  obtain ⟨m, rfl⟩ := ha
  obtain ⟨n, rfl⟩ := hb
  exact ⟨m + n, by push_cast; ring⟩

theorem round2_twoDec {q : ℚ} (h : TwoDec q) : round2 q = q := by
  obtain ⟨n, rfl⟩ := h
  unfold round2
  rw [show (100 : ℚ) * ((n : ℚ) / 100) + 1 / 2 = (n : ℚ) + 1 / 2 by ring,
    Int.floor_int_add, show ⌊(1 : ℚ) / 2⌋ = 0 by norm_num]
  push_cast
  ring

theorem twoDec_round2 (q : ℚ) : TwoDec (round2 q) := ⟨⌊100 * q + 1 / 2⌋, rfl⟩

theorem round2_zero : round2 0 = 0 := round2_twoDec TwoDec.zero

theorem round2_nonneg {q : ℚ} (h : 0 ≤ q) : 0 ≤ round2 q := by
  unfold round2
  have hf : (0 : ℤ) ≤ ⌊100 * q + 1 / 2⌋ := Int.le_floor.mpr (by push_cast; linarith)
  have hq : (0 : ℚ) ≤ (⌊100 * q + 1 / 2⌋ : ℚ) := by exact_mod_cast hf
  linarith

theorem round2_nonpos {q : ℚ} (h : 100 * q + 1 / 2 < 1) : round2 q ≤ 0 := by
  unfold round2
  have hf : ⌊100 * q + 1 / 2⌋ < 1 := by
    have := Int.floor_lt.mpr (show 100 * q + 1 / 2 < ((1 : ℤ) : ℚ) by push_cast; linarith)
    exact this
  have hq : (⌊100 * q + 1 / 2⌋ : ℚ) ≤ 0 := by exact_mod_cast Int.lt_add_one_iff.mp hf
  linarith

theorem foldl_add_map_sum (f : Record → ℚ) (l : List Record) (init : ℚ) :
    l.foldl (fun s r => s + f r) init = init + (l.map f).sum := by
  induction l generalizing init with
  | nil => simp
  | cons x xs ih =>
    rw [List.foldl_cons, ih, List.map_cons, List.sum_cons]
    ring

theorem twoDec_map_sum (f : Record → ℚ) (l : List Record)
    (h : ∀ r ∈ l, TwoDec (f r)) : TwoDec ((l.map f).sum) := by
  induction l with
  | nil => simpa using TwoDec.zero
  | cons x xs ih =>
    rw [List.map_cons, List.sum_cons]
    exact (h x (by simp)).add (ih (fun r hr => h r (by simp [hr])))

theorem sum_map_nonneg (f : Record → ℚ) (l : List Record)
    (h : ∀ r ∈ l, 0 ≤ f r) : 0 ≤ (l.map f).sum := by
  induction l with
  | nil => simp
  | cons x xs ih =>
    rw [List.map_cons, List.sum_cons]
    have := h x (by simp)
    have := ih (fun r hr => h r (by simp [hr]))
    linarith

theorem mem_insertByDate {b r : Record} {l : List Record} :
    b ∈ insertByDate r l ↔ b = r ∨ b ∈ l := by
  induction l with
  | nil => simp [insertByDate]
  | cons x xs ih =>
    rw [insertByDate]
    by_cases hc : r.date ≤ x.date
    · rw [if_pos hc]
      simp
    · rw [if_neg hc]
      simp only [List.mem_cons, ih]
      tauto

theorem pairwise_insertByDate {r : Record} {l : List Record}
    (h : l.Pairwise (fun a b => a.date ≤ b.date)) :
    (insertByDate r l).Pairwise (fun a b => a.date ≤ b.date) := by
  induction l with
  | nil => simp [insertByDate]
  | cons x xs ih =>
    rw [List.pairwise_cons] at h
    rw [insertByDate]
    by_cases hc : r.date ≤ x.date
    · rw [if_pos hc]
      refine List.Pairwise.cons ?_ (List.Pairwise.cons h.1 h.2)
      intro b hb
      rcases List.mem_cons.mp hb with hbx | hbxs
      · rw [hbx]; exact hc
      · exact le_trans hc (h.1 b hbxs)
    · rw [if_neg hc]
      refine List.Pairwise.cons ?_ (ih h.2)
      intro b hb
      rcases mem_insertByDate.mp hb with hbr | hbxs
      · rw [hbr]; linarith [lt_of_not_le hc]
      · exact h.1 b hbxs

theorem pairwise_sortByDate (l : List Record) :
    (sortByDate l).Pairwise (fun a b => a.date ≤ b.date) := by
  induction l with
  | nil => simp [sortByDate]
  | cons x xs ih => exact pairwise_insertByDate ih

/-- Worked hours are always non-negative. -/
theorem calculateWorkedHours_nonneg (i o : Option String) :
    0 ≤ calculateWorkedHours i o := by
  unfold calculateWorkedHours
  split
  · exact le_refl 0
  · split
    · exact le_max_left 0 _
    · exact le_refl 0

/-- Worked hours always carry two decimal places. -/
theorem calculateWorkedHours_twoDec (i o : Option String) :
    TwoDec (calculateWorkedHours i o) := by
  unfold calculateWorkedHours
  split
  · exact TwoDec.zero
  · split
    · rcases max_choice 0 (round2 ((_ - _) / 60)) with hm | hm <;> rw [hm]
      · exact TwoDec.zero
      · exact twoDec_round2 _
    · exact TwoDec.zero


theorem classifyDay_sunday (i o : Option String) :
    classifyDay .sunday i o = ⟨.holiday, 0, false, true⟩ := rfl

/-- On a day other than Sunday the classifier runs the punch logic (the
`Weekend` branch requires Sunday and is unreachable here). -/
theorem classifyDay_not_sunday (dow : Weekday) (h : dow ≠ .sunday) (i o : Option String) :
    classifyDay dow i o
      = if strFalsy i || strFalsy o then ⟨.leave, 0, true, false⟩
        else if calculateWorkedHours i o = 0 then
          ⟨.leave, calculateWorkedHours i o, true, false⟩
        else ⟨.present, calculateWorkedHours i o, false, false⟩ := by
  cases dow
  · exact absurd rfl h
  all_goals rfl

theorem classifyDay_flags (dow : Weekday) (i o : Option String) :
    ((classifyDay dow i o).isLeave = true ↔ (classifyDay dow i o).status = .leave)
    ∧ ((classifyDay dow i o).isHoliday = true ↔ (classifyDay dow i o).status = .holiday)
    ∧ TwoDec (classifyDay dow i o).workedHours
    ∧ 0 ≤ (classifyDay dow i o).workedHours := by
  by_cases hd : dow = .sunday
  · subst hd
    rw [classifyDay_sunday]
    simpa using TwoDec.zero
  · rw [classifyDay_not_sunday dow hd]
    split
    · simpa using TwoDec.zero
    · split
      · simpa using ⟨calculateWorkedHours_twoDec i o, calculateWorkedHours_nonneg i o⟩
      · simpa using ⟨calculateWorkedHours_twoDec i o, calculateWorkedHours_nonneg i o⟩

theorem getExpectedHours_twoDec (dow : Weekday) :
    TwoDec (getExpectedHours dow) ∧ 0 ≤ getExpectedHours dow := by
  cases dow
  all_goals constructor
  · exact ⟨0, by norm_num [getExpectedHours]⟩
  · norm_num [getExpectedHours]
  · exact ⟨850, by norm_num [getExpectedHours]⟩
  · norm_num [getExpectedHours]
  · exact ⟨850, by norm_num [getExpectedHours]⟩
  · norm_num [getExpectedHours]
  · exact ⟨850, by norm_num [getExpectedHours]⟩
  · norm_num [getExpectedHours]
  · exact ⟨850, by norm_num [getExpectedHours]⟩
  · norm_num [getExpectedHours]
  · exact ⟨850, by norm_num [getExpectedHours]⟩
  · norm_num [getExpectedHours]
  · exact ⟨400, by norm_num [getExpectedHours]⟩
  · norm_num [getExpectedHours]

/-- Every record produced by the row loop is canonical. -/
theorem buildRow_canonical (tz : Int) (label : String) (row : RawRow) (r : Record)
    (hb : buildRow tz label row = some r) : CanonicalRec r := by
  unfold buildRow at hb
  rw [Option.bind_eq_some] at hb
  obtain ⟨name, hname, hb2⟩ := hb
  split at hb2
  · exact absurd hb2 (by simp)
  · rw [Option.bind_eq_some] at hb2
    obtain ⟨parsedMs, hpd, hb3⟩ := hb2
    have := Option.some.inj hb3
    subst this
    refine ⟨?_, ?_, ?_, ?_, ?_, ?_⟩
    · exact (classifyDay_flags _ row.inTime row.outTime).1
    · exact (classifyDay_flags _ row.inTime row.outTime).2.1
    · exact (classifyDay_flags _ row.inTime row.outTime).2.2.1
    · exact (getExpectedHours_twoDec _).1
    · exact (classifyDay_flags _ row.inTime row.outTime).2.2.2
    · exact (getExpectedHours_twoDec _).2

/-- Characterization of a successful row build: the record is the literal
assembled from the parsed date and the classifier output. -/
theorem buildRow_some_eq (tz : Int) (label : String) (row : RawRow) (r : Record)
    (hb : buildRow tz label row = some r) :
    ∃ name parsedMs, parseDateValue tz row.dateValue = some parsedMs
      ∧ r = ⟨name, parsedMs,
          (if strFalsy row.inTime then none else row.inTime),
          (if strFalsy row.outTime then none else row.outTime),
          (classifyDay (dayOfWeekOfEpochDay (utcEpochDay parsedMs))
            row.inTime row.outTime).workedHours,
          (classifyDay (dayOfWeekOfEpochDay (utcEpochDay parsedMs))
            row.inTime row.outTime).isLeave,
          (classifyDay (dayOfWeekOfEpochDay (utcEpochDay parsedMs))
            row.inTime row.outTime).isHoliday,
          dayOfWeekOfEpochDay (utcEpochDay parsedMs), label,
          getExpectedHours (dayOfWeekOfEpochDay (utcEpochDay parsedMs)),
          (classifyDay (dayOfWeekOfEpochDay (utcEpochDay parsedMs))
            row.inTime row.outTime).status⟩ := by
  unfold buildRow at hb
  rw [Option.bind_eq_some] at hb
  obtain ⟨name, hname, hb2⟩ := hb
  split at hb2
  · exact absurd hb2 (by simp)
  · rw [Option.bind_eq_some] at hb2
    obtain ⟨parsedMs, hpd, hb3⟩ := hb2
    exact ⟨name, parsedMs, hpd, (Option.some.inj hb3).symm⟩

/-- If a time value is falsy its parse is empty. -/
theorem strFalsy_bind_none {x : Option String} (h : strFalsy x = true) :
    x.bind parseHHMM = none := by
  cases x with
  | none => rfl
  | some s =>
    have : s = "" := by simpa [strFalsy] using h
    subst this
    rfl

/-! ## Claims -/

/-- C2: for every raw row whose normalized day falls on a Sunday,
classification yields status Holiday and expectedHours 0 regardless of
punches, and the stored workedHours is 0. -/
theorem C2_sunday_is_holiday (tz : Int) (label : String) (row : RawRow) (r : Record)
    (hb : buildRow tz label row = some r) (hd : r.dayOfWeek = .sunday) :
    r.status = .holiday ∧ r.expectedHours = 0 ∧ r.workedHours = 0 := by
  obtain ⟨name, parsedMs, hparse, hr⟩ := buildRow_some_eq tz label row r hb
  subst hr
  dsimp only at hd ⊢
  rw [hd, classifyDay_sunday]
  exact ⟨rfl, rfl, rfl⟩


theorem C2_sunday_is_holiday_witness :
    recSun.status = .holiday ∧ recSun.expectedHours = 0 ∧ recSun.workedHours = 0 :=
  C2_sunday_is_holiday 330 ("2024-03") rowSun recSun (by decide) (by decide)

/-- C3: worked-hours computation — 0 on absent/unparseable input, exactly 0
(not negative, not wrapped) on inverted punches, the rounded elapsed
fraction otherwise, and never negative. -/
theorem C3_worked_hours (i o : Option String) :
    0 ≤ calculateWorkedHours i o
    ∧ ((i.bind parseHHMM = none ∨ o.bind parseHHMM = none) → calculateWorkedHours i o = 0)
    ∧ (∀ im om : Nat, i.bind parseHHMM = some im → o.bind parseHHMM = some om →
        (om < im → calculateWorkedHours i o = 0)
        ∧ (im ≤ om → calculateWorkedHours i o = round2 (((om : ℚ) - (im : ℚ)) / 60))) := by
  refine ⟨calculateWorkedHours_nonneg i o, ?_, ?_⟩
  · intro h
    unfold calculateWorkedHours
    split
    · rfl
    · cases hi : i.bind parseHHMM <;> cases ho : o.bind parseHHMM <;> simp_all
  · intro im om him hom
    have hred : calculateWorkedHours i o = max 0 (round2 (((om : ℚ) - (im : ℚ)) / 60)) := by
      unfold calculateWorkedHours
      split
      · rename_i hf
        rcases (by simpa using hf : strFalsy i = true ∨ strFalsy o = true) with hf1 | hf1
        · rw [strFalsy_bind_none hf1] at him
          exact absurd him (by simp)
        · rw [strFalsy_bind_none hf1] at hom
          exact absurd hom (by simp)
      · rw [him, hom]
    constructor
    · intro hlt
      rw [hred]
      have hq : ((om : ℚ) - (im : ℚ)) / 60 ≤ -(1 / 60) := by
        have : (om : ℚ) - (im : ℚ) ≤ -1 := by
          have : (om : ℤ) < (im : ℤ) := by exact_mod_cast hlt
          have h2 : ((om : ℤ) : ℚ) ≤ ((im : ℤ) : ℚ) - 1 := by
            exact_mod_cast Int.le_sub_one_of_lt this
          push_cast at h2
          linarith
        linarith
      have := round2_nonpos (q := ((om : ℚ) - (im : ℚ)) / 60) (by linarith)
      exact max_eq_left this
    · intro hle
      rw [hred]
      have hq : 0 ≤ ((om : ℚ) - (im : ℚ)) / 60 := by
        have : (im : ℚ) ≤ (om : ℚ) := by exact_mod_cast hle
        linarith
      exact max_eq_right (round2_nonneg hq)

theorem C3_worked_hours_witness :
    calculateWorkedHours (some ("09:00")) (some ("17:30"))
      = round2 ((((1050 : Nat) : ℚ) - ((540 : Nat) : ℚ)) / 60) :=
  ((C3_worked_hours (some ("09:00")) (some ("17:30"))).2.2 540 1050
    (by decide) (by decide)).2 (by norm_num)

/-- C6: normalizing a calendar-date input produces a UTC-midnight instant
whose UTC civil fields equal the input's local civil fields, for every
instant and every environment timezone offset — the local date is
preserved, never drifting a day. -/
theorem C6_normalize_preserves_local_date (tz ms : Int) :
    normalizeDateObject tz ms % msPerDay = 0
    ∧ civilYear (utcEpochDay (normalizeDateObject tz ms)) = civilYear (localEpochDay tz ms)
    ∧ civilMonth (utcEpochDay (normalizeDateObject tz ms)) = civilMonth (localEpochDay tz ms)
    ∧ civilDay (utcEpochDay (normalizeDateObject tz ms)) = civilDay (localEpochDay tz ms) := by
  have hD : normalizeDateObject tz ms = localEpochDay tz ms * msPerDay := by
    unfold normalizeDateObject dateUTC
    rw [daysFromCivil_civil]
  have hday : utcEpochDay (normalizeDateObject tz ms) = localEpochDay tz ms := by
    rw [hD]
    unfold utcEpochDay
    exact Int.mul_ediv_cancel _ (by norm_num [msPerDay])
  refine ⟨?_, ?_, ?_, ?_⟩
  · rw [hD]
    exact Int.mul_emod_left _ _
  · rw [hday]
  · rw [hday]
  · rw [hday]

/-- C7: string dates go through the fixed ordered strict format list
`YYYY-MM-DD`, `DD/MM/YYYY`, `MM/DD/YYYY`, `DD-MM-YYYY`; the first matching
format wins (so `03/04/2024` reads day-first even though `MM/DD/YYYY` also
matches), and a string matching no format makes the row fail date parsing
and be skipped. -/
theorem C7_string_formats :
    (∀ s, parseDateString s
        = ((matchFmtYMDdash s).orElse fun _ =>
            ((matchFmtDMYslash s).orElse fun _ =>
              ((matchFmtMDYslash s).orElse fun _ => matchFmtDMYdash s))))
    ∧ parseDateString ("03/04/2024") = some ⟨2024, 4, 3⟩
    ∧ matchFmtMDYslash ("03/04/2024") = some ⟨2024, 3, 4⟩
    ∧ (∀ s, parseDateString s = none →
        ∀ tz label (row : RawRow), row.dateValue = .str s → buildRow tz label row = none) := by
  refine ⟨?_, by decide, by decide, ?_⟩
  · intro s
    unfold parseDateString dateFormats
    cases h1 : matchFmtYMDdash s <;> cases h2 : matchFmtDMYslash s <;>
      cases h3 : matchFmtMDYslash s <;> cases h4 : matchFmtDMYdash s <;>
      simp [tryFormatsInOrder, h1, h2, h3, h4, Option.orElse]
  · intro s hs tz label row hdv
    have hpd : parseDateValue tz row.dateValue = none := by
      rw [hdv]
      simp only [parseDateValue, hs]
    unfold buildRow
    simp only [hpd, Option.none_bind]
    cases row.employeeName with
    | none => rfl
    | some name =>
      rw [Option.some_bind]
      split
      · rfl
      · rfl

theorem C7_string_formats_witness :
    parseDateString ("31/02/2024") = none
    ∧ buildRow 0 ("2024-02") ⟨some ("A"), .str ("31/02/2024"), none, none⟩ = none := by
  have h : parseDateString ("31/02/2024") = none := by decide
  exact ⟨h, C7_string_formats.2.2.2 ("31/02/2024") h 0 ("2024-02") _ rfl⟩

/-- C10: every record produced by ingestion has status Present, Leave or
Holiday; the `Weekend` status is never assigned because its branch
requires the day to be Sunday while not being a holiday, which is
impossible. -/
theorem C10_no_weekend_status (tz : Int) (label : String) (row : RawRow) (r : Record)
    (hb : buildRow tz label row = some r) :
    r.status ≠ .weekend
    ∧ (r.status = .present ∨ r.status = .leave ∨ r.status = .holiday) := by
  obtain ⟨name, parsedMs, hparse, hr⟩ := buildRow_some_eq tz label row r hb
  subst hr
  dsimp only
  by_cases hd : dayOfWeekOfEpochDay (utcEpochDay parsedMs) = .sunday
  · rw [hd, classifyDay_sunday]
    simp
  · rw [classifyDay_not_sunday _ hd]
    split
    · simp
    · split <;> simp


theorem C10_no_weekend_status_witness :
    recSat.status ≠ .weekend
    ∧ (recSat.status = .present ∨ recSat.status = .leave ∨ recSat.status = .holiday) :=
  C10_no_weekend_status 330 ("2024-03") rowSat recSat (by decide)

/-- Under the canonical invariants, the leave counter's predicate agrees
with testing `status == Leave`. -/
theorem canonical_leave_flag {r : Record} (hc : CanonicalRec r) :
    (r.isLeave && !r.isHoliday) = (r.status == .leave) := by
  obtain ⟨h1, h2, _⟩ := hc
  by_cases hs : r.status = .leave
  · have hl : r.isLeave = true := h1.mpr hs
    have hh : r.isHoliday = false := by
      cases hh : r.isHoliday
      · rfl
      · exact absurd (h2.mp hh) (by rw [hs]; simp)
    rw [hl, hh, hs]
    rfl
  · have hl : r.isLeave = false := by
      cases hl : r.isLeave
      · rfl
      · exact absurd (h1.mp hl) hs
    have hbe : (r.status == Status.leave) = false := by simpa using hs
    rw [hl, hbe]
    rfl

theorem leaves_filter_eq (recs : List Record) (h : ∀ r ∈ recs, CanonicalRec r) :
    recs.filter (fun r => r.isLeave && !r.isHoliday)
      = recs.filter (fun r => r.status == .leave) :=
  List.filter_congr (fun r hr => canonical_leave_flag (h r hr))

/-- C1 (corrected): over canonical records the month statistic's totals
are the plain sums, `leavesTaken` counts exactly the status-Leave records
(Holiday records are never counted), the breakdown is sorted ascending by
day, and `productivityPercent` is the worked/expected percentage rounded
to 2 decimal places (0 when no expected hours) — the rounding being the
one deviation from the claim as written. -/
theorem C1_month_statistic (name : String) (recs : List Record)
    (h : ∀ r ∈ recs, CanonicalRec r) :
    (employeeMonthStat name recs).totalExpectedHours
        = (recs.map (fun r => r.expectedHours)).sum
    ∧ (employeeMonthStat name recs).totalWorkedHours
        = (recs.map (fun r => r.workedHours)).sum
    ∧ (employeeMonthStat name recs).leavesTaken
        = (recs.filter (fun r => r.status == .leave)).length
    ∧ (employeeMonthStat name recs).productivity
        = (if (recs.map (fun r => r.expectedHours)).sum > 0 then
            round2 ((recs.map (fun r => r.workedHours)).sum
              / (recs.map (fun r => r.expectedHours)).sum * 100)
           else 0)
    ∧ ((employeeMonthStat name recs).dailyBreakdown).Pairwise
        (fun a b => a.date ≤ b.date) := by
  have hE : recs.foldl (fun s r => s + r.expectedHours) 0
      = (recs.map (fun r => r.expectedHours)).sum := by
    rw [foldl_add_map_sum]
    ring
  have hW : recs.foldl (fun s r => s + r.workedHours) 0
      = (recs.map (fun r => r.workedHours)).sum := by
    rw [foldl_add_map_sum]
    ring
  have hTE : TwoDec ((recs.map (fun r => r.expectedHours)).sum) :=
    twoDec_map_sum _ _ (fun r hr => (h r hr).2.2.2.1)
  have hTW : TwoDec ((recs.map (fun r => r.workedHours)).sum) :=
    twoDec_map_sum _ _ (fun r hr => (h r hr).2.2.1)
  refine ⟨?_, ?_, ?_, ?_, ?_⟩
  · show round2 (recs.foldl (fun s r => s + r.expectedHours) 0) = _
    rw [hE, round2_twoDec hTE]
  · show round2 (recs.foldl (fun s r => s + r.workedHours) 0) = _
    rw [hW, round2_twoDec hTW]
  · show (recs.filter (fun r => r.isLeave && !r.isHoliday)).length = _
    rw [leaves_filter_eq recs h]
  · show round2 (if recs.foldl (fun s r => s + r.expectedHours) 0 > 0 then
        recs.foldl (fun s r => s + r.workedHours) 0
          / recs.foldl (fun s r => s + r.expectedHours) 0 * 100
      else 0) = _
    rw [hE, hW]
    split_ifs
    · rfl
    · exact round2_zero
  · show ((sortByDate recs).map toBreakdownEntry).Pairwise (fun a b => a.date ≤ b.date)
    exact List.pairwise_map.mpr (pairwise_sortByDate recs)


/-- C1 counterexample: with one Present Monday (8 of 8.5 hours) the stored
productivity is the rounded 94.12, not the exact ratio 1600/17, so
"productivityPercent equals totalWorkedHours/totalExpectedHours*100" is
false as written. -/
theorem C1_month_statistic_cex :
    (employeeMonthStat ("Asha") [recMon]).totalExpectedHours ≠ 0
    ∧ (employeeMonthStat ("Asha") [recMon]).productivity
        ≠ (employeeMonthStat ("Asha") [recMon]).totalWorkedHours
          / (employeeMonthStat ("Asha") [recMon]).totalExpectedHours * 100 := by
  have h1 : [recMon].foldl (fun s r => s + r.expectedHours) 0 = 8.5 := by
    simp [recMon]
  have h2 : [recMon].foldl (fun s r => s + r.workedHours) 0 = 8 := by
    simp [recMon]
  have he : (employeeMonthStat ("Asha") [recMon]).totalExpectedHours = 8.5 := by
    show round2 ([recMon].foldl (fun s r => s + r.expectedHours) 0) = 8.5
    rw [h1]
    unfold round2
    norm_num
  have hw : (employeeMonthStat ("Asha") [recMon]).totalWorkedHours = 8 := by
    show round2 ([recMon].foldl (fun s r => s + r.workedHours) 0) = 8
    rw [h2]
    unfold round2
    norm_num
  have hp : (employeeMonthStat ("Asha") [recMon]).productivity = 9412 / 100 := by
    show round2 (if [recMon].foldl (fun s r => s + r.expectedHours) 0 > 0 then
        [recMon].foldl (fun s r => s + r.workedHours) 0
          / [recMon].foldl (fun s r => s + r.expectedHours) 0 * 100
      else 0) = 9412 / 100
    rw [h1, h2, if_pos (by norm_num : (8.5 : ℚ) > 0)]
    unfold round2
    norm_num
  rw [he, hw, hp]
  constructor
  · norm_num
  · norm_num

theorem C1_month_statistic_witness :
    (employeeMonthStat ("Asha") [recMon]).totalWorkedHours
      = ([recMon].map (fun r => r.workedHours)).sum
    ∧ (employeeMonthStat ("Asha") [recMon]).leavesTaken
      = ([recMon].filter (fun r => r.status == .leave)).length :=
  have hc : ∀ r ∈ [recMon], CanonicalRec r := fun r hr => by
    rw [List.mem_singleton] at hr
    subst hr
    exact ⟨by simp [recMon], by simp [recMon], ⟨800, by norm_num [recMon]⟩,
      ⟨850, by norm_num [recMon]⟩, by norm_num [recMon], by norm_num [recMon]⟩
  ⟨(C1_month_statistic ("Asha") [recMon] hc).2.1,
   (C1_month_statistic ("Asha") [recMon] hc).2.2.1⟩

/-- C4: an ingestion batch for a month that already has records, without
override, fails with the duplicate-data error carrying the existing label,
and the store is unchanged — nothing deleted, nothing inserted. -/
theorem C4_duplicate_partition (tz : Int) (store : List Record) (month year : Nat)
    (override : String) (rows : List RawRow) (hm1 : 1 ≤ month) (hm2 : month ≤ 12)
    (hex : ∃ r ∈ store, r.monthYear = mkMonthLabel year month)
    (hov : override ≠ ("true")) :
    uploadAttendance tz store month year override rows
      = (store, .duplicateData (mkMonthLabel year month)) := by
  simp only [uploadAttendance]
  rw [if_neg (by omega : ¬(month < 1 ∨ month > 12))]
  have hany : store.any (fun r => r.monthYear == mkMonthLabel year month) = true := by
    rw [List.any_eq_true]
    obtain ⟨r, hr, hl⟩ := hex
    exact ⟨r, hr, by simpa using hl⟩
  have hbne : (override != ("true")) = true := bne_iff_ne.mpr hov
  rw [hany, hbne]
  simp

theorem C4_duplicate_partition_witness :
    uploadAttendance 0 [recSun] 3 2024 ("false") []
      = ([recSun], .duplicateData (mkMonthLabel 2024 3)) :=
  C4_duplicate_partition 0 [recSun] 3 2024 ("false") [] (by norm_num) (by norm_num)
    ⟨recSun, by simp, by decide⟩ (by decide)


/-- C8 (corrected): a batch with zero valid rows after filtering fails
with the fixed no-valid-data error and the store is unchanged; the error
payload is constant and carries no row counts. -/
theorem C8_empty_batch (tz : Int) (store : List Record) (month year : Nat)
    (override : String) (rows : List RawRow) (hm1 : 1 ≤ month) (hm2 : month ≤ 12)
    (hnodup : store.any (fun r => r.monthYear == mkMonthLabel year month) = false
        ∨ override = ("true"))
    (hempty : processRows tz (mkMonthLabel year month) rows = []) :
    uploadAttendance tz store month year override rows = (store, .noValidData) := by
  simp only [uploadAttendance]
  rw [if_neg (by omega : ¬(month < 1 ∨ month > 12))]
  have hcond : (store.any (fun r => r.monthYear == mkMonthLabel year month)
      && (override != ("true"))) = false := by
    rcases hnodup with hno | hys
    · rw [hno, Bool.false_and]
    · subst hys
      simp
  rw [hcond]
  rw [if_neg (by simp : ¬(false = true))]
  rw [hempty]
  simp

theorem C8_empty_batch_witness :
    uploadAttendance 0 [] 3 2024 ("false") [badRow] = ([], .noValidData) :=
  C8_empty_batch 0 [] 3 2024 ("false") [badRow] (by norm_num) (by norm_num)
    (Or.inl (by decide)) (by decide)

/-- C8 counterexample: two all-invalid batches of different sizes (1 row
seen vs 2 rows seen, 0 accepted in both) produce identical outcomes, so
the empty-batch error payload cannot include the seen/accepted counts the
claim asserts. -/
theorem C8_empty_batch_cex :
    (uploadAttendance 0 [] 3 2024 ("false") [badRow]).2 = .noValidData
    ∧ uploadAttendance 0 [] 3 2024 ("false") [badRow]
        = uploadAttendance 0 [] 3 2024 ("false") [badRow, badRow]
    ∧ ([badRow] : List RawRow).length ≠ ([badRow, badRow] : List RawRow).length := by
  refine ⟨by decide, by decide, by decide⟩

/-- C9 (corrected): the month query propagates a typed no-data failure
carrying the month label when its partition is empty, but the workforce
query answers a period with no stored records with a plain success holding
an empty breakdown. -/
theorem C9_no_data_handling :
    (∀ (store : List Record) (year month : Nat),
        store.filter (fun r => r.monthYear == mkMonthLabel year month) = [] →
        monthQuery store year month = .noData (mkMonthLabel year month))
    ∧ (∀ (tz : Int) (currentYear : Nat) (store : List Record) (year month : Nat),
        2000 ≤ year → year ≤ currentYear + 1 → 1 ≤ month → month ≤ 12 →
        store.filter (fun r =>
            jsLocalNewDateMs tz (year : Int) ((month : Int) - 1) 1 ≤ r.date
              ∧ r.date < jsLocalNewDateMs tz (year : Int) (month : Int) 1) = [] →
        workforceQuery tz currentYear store year month = .ok year month []) := by
  constructor
  · intro store year month hfilter
    simp only [monthQuery]
    rw [hfilter]
    simp
  · intro tz cy store year month h1 h2 h3 h4 hfilter
    simp only [workforceQuery]
    rw [if_neg (by omega : ¬(year < 2000 ∨ year > cy + 1)),
      if_neg (by omega : ¬(month < 1 ∨ month > 12)), hfilter]
    rfl

theorem C9_no_data_handling_witness :
    monthQuery [] 2024 3 = .noData (mkMonthLabel 2024 3)
    ∧ workforceQuery 0 2025 [] 2024 3 = .ok 2024 3 [] :=
  ⟨C9_no_data_handling.1 [] 2024 3 rfl,
   C9_no_data_handling.2 0 2025 [] 2024 3 (by norm_num) (by norm_num) (by norm_num)
     (by norm_num) rfl⟩

/-- C9 counterexample: the workforce query over an empty store answers
2024-03 with a success and an empty breakdown — a silently empty result in
place of the typed no-data failure the claim requires of every query. -/
theorem C9_no_data_handling_cex :
    workforceQuery 0 2025 [] 2024 3 = .ok 2024 3 [] := by
  decide

theorem bwStep_best (acc : BWAcc) (m : MonthProd) :
    (bwStep acc m).best
      = if m.productivity > acc.best.productivity then m else acc.best := rfl

theorem bwStep_worst (acc : BWAcc) (m : MonthProd) :
    (bwStep acc m).worst
      = if m.productivity < acc.worst.productivity ∧ m.productivity > 0 then m
        else acc.worst := rfl

theorem bwFoldl_best (ms : List MonthProd) (acc : BWAcc) :
    acc.best.productivity ≤ (ms.foldl bwStep acc).best.productivity
    ∧ (∀ m ∈ ms, m.productivity ≤ (ms.foldl bwStep acc).best.productivity)
    ∧ ((ms.foldl bwStep acc).best = acc.best ∨ (ms.foldl bwStep acc).best ∈ ms) := by
  induction ms generalizing acc with
  | nil => simp
  | cons x xs ih =>
    rw [List.foldl_cons]
    obtain ⟨h1, h2, h3⟩ := ih (bwStep acc x)
    have hstep : acc.best.productivity ≤ (bwStep acc x).best.productivity := by
      rw [bwStep_best]
      split
      · rename_i hgt
        exact le_of_lt hgt
      · exact le_rfl
    have hx : x.productivity ≤ (bwStep acc x).best.productivity := by
      rw [bwStep_best]
      split
      · exact le_rfl
      · rename_i hng
        exact le_of_not_lt hng
    refine ⟨le_trans hstep h1, ?_, ?_⟩
    · intro m hm
      rcases List.mem_cons.mp hm with rfl | hmem
      · exact le_trans hx h1
      · exact h2 m hmem
    · rcases h3 with he | hmem
      · rw [he, bwStep_best]
        split
        · right
          exact List.mem_cons_self _ _
        · left
          rfl
      · right
        exact List.mem_cons_of_mem _ hmem

theorem bwFoldl_worst (ms : List MonthProd) (acc : BWAcc) :
    (ms.foldl bwStep acc).worst.productivity ≤ acc.worst.productivity
    ∧ (∀ m ∈ ms, 0 < m.productivity →
        (ms.foldl bwStep acc).worst.productivity ≤ m.productivity)
    ∧ ((ms.foldl bwStep acc).worst = acc.worst
        ∨ ((ms.foldl bwStep acc).worst ∈ ms
            ∧ 0 < (ms.foldl bwStep acc).worst.productivity)) := by
  induction ms generalizing acc with
  | nil => simp
  | cons x xs ih =>
    rw [List.foldl_cons]
    obtain ⟨h1, h2, h3⟩ := ih (bwStep acc x)
    have hstep : (bwStep acc x).worst.productivity ≤ acc.worst.productivity := by
      rw [bwStep_worst]
      split
      · rename_i hc
        exact le_of_lt hc.1
      · exact le_rfl
    have hx : 0 < x.productivity → (bwStep acc x).worst.productivity ≤ x.productivity := by
      intro hpos
      rw [bwStep_worst]
      by_cases hc : x.productivity < acc.worst.productivity ∧ x.productivity > 0
      · rw [if_pos hc]
      · rw [if_neg hc]
        exact le_of_not_lt (fun hlt => hc ⟨hlt, hpos⟩)
    refine ⟨le_trans h1 hstep, ?_, ?_⟩
    · intro m hm hpos
      rcases List.mem_cons.mp hm with rfl | hmem
      · exact le_trans h1 (hx hpos)
      · exact h2 m hmem hpos
    · rcases h3 with he | hmem
      · rw [he, bwStep_worst]
        by_cases hc : x.productivity < acc.worst.productivity ∧ x.productivity > 0
        · rw [if_pos hc]
          right
          exact ⟨List.mem_cons_self _ _, hc.2⟩
        · rw [if_neg hc]
          left
          rfl
      · right
        exact ⟨List.mem_cons_of_mem _ hmem.1, hmem.2⟩

/-- C5 (corrected): `bestMonth` is a maximum-productivity month among the
positive-productivity months (N/A when none); `worstMonth`, when reported,
is a minimum among the positive-productivity months and lies strictly
below 100, and it is reported as N/A exactly when no month has
productivity strictly between 0 and 100 — months at or above 100% can
never be the worst month. -/
theorem C5_best_worst (ms : List MonthProd) :
    ((∃ m ∈ ms, 0 < m.productivity) →
      ∃ b, bestMonthReport ms = some b ∧ b ∈ ms ∧ 0 < b.productivity
        ∧ ∀ m ∈ ms, m.productivity ≤ b.productivity)
    ∧ (∀ w, worstMonthReport ms = some w →
        w ∈ ms ∧ 0 < w.productivity ∧ w.productivity < 100
        ∧ ∀ m ∈ ms, 0 < m.productivity → w.productivity ≤ m.productivity)
    ∧ (worstMonthReport ms = none ↔
        ∀ m ∈ ms, ¬(0 < m.productivity ∧ m.productivity < 100)) := by
  obtain ⟨hb1, hb2, hb3⟩ := bwFoldl_best ms bwInit
  obtain ⟨hw1, hw2, hw3⟩ := bwFoldl_worst ms bwInit
  have hbi : bwInit.best.productivity = 0 := rfl
  have hwi : bwInit.worst.productivity = 100 := rfl
  unfold bestMonthReport worstMonthReport bwFold
  refine ⟨?_, ?_, ?_⟩
  · rintro ⟨m, hm, hmp⟩
    have hpos : 0 < (ms.foldl bwStep bwInit).best.productivity :=
      lt_of_lt_of_le hmp (hb2 m hm)
    refine ⟨(ms.foldl bwStep bwInit).best, ?_, ?_, hpos, hb2⟩
    · rw [if_pos hpos]
    · rcases hb3 with he | hmem
      · rw [he, hbi] at hpos
        exact absurd hpos (lt_irrefl 0)
      · exact hmem
  · intro w hw
    split at hw
    · rename_i hlt
      have hww := Option.some.inj hw
      subst hww
      have hmem : (ms.foldl bwStep bwInit).worst ∈ ms
          ∧ 0 < (ms.foldl bwStep bwInit).worst.productivity := by
        rcases hw3 with he | hm
        · rw [he, hwi] at hlt
          exact absurd hlt (lt_irrefl 100)
        · exact hm
      exact ⟨hmem.1, hmem.2, hlt, hw2⟩
    · exact absurd hw (by simp)
  · split
    · rename_i hlt
      constructor
      · intro hcontra
        exact absurd hcontra (by simp)
      · intro hall
        exfalso
        have hmem : (ms.foldl bwStep bwInit).worst ∈ ms
            ∧ 0 < (ms.foldl bwStep bwInit).worst.productivity := by
          rcases hw3 with he | hm
          · rw [he, hwi] at hlt
            exact absurd hlt (lt_irrefl 100)
          · exact hm
        exact hall _ hmem.1 ⟨hmem.2, hlt⟩
    · rename_i hnlt
      constructor
      · intro _ m hm hmp
        have hmin := hw2 m hm hmp.1
        have h100 : (100 : ℚ) ≤ (ms.foldl bwStep bwInit).worst.productivity :=
          le_of_not_lt hnlt
        linarith [hmp.2]
      · intro _
        rfl

/-- C5 counterexample: a single month at 120% productivity is the unique
positive-productivity month (hence the claim's minimum), yet the reported
worst month is N/A. -/
theorem C5_best_worst_cex :
    worstMonthReport [⟨1, 120, 0⟩] = none
    ∧ (0 : ℚ) < (⟨1, 120, 0⟩ : MonthProd).productivity := by
  constructor
  · decide
  · norm_num

theorem C5_best_worst_witness :
    ∃ b, bestMonthReport [⟨1, 50, 0⟩, ⟨2, 120, 0⟩] = some b
      ∧ b ∈ [⟨1, 50, 0⟩, ⟨2, 120, 0⟩] ∧ 0 < b.productivity
      ∧ ∀ m ∈ [(⟨1, 50, 0⟩ : MonthProd), ⟨2, 120, 0⟩],
          m.productivity ≤ b.productivity :=
  (C5_best_worst [⟨1, 50, 0⟩, ⟨2, 120, 0⟩]).1 ⟨⟨1, 50, 0⟩, by simp, by norm_num⟩

end EPT
